import Mathlib

/-!
Verification development for the three-of-spades tournament tracker.

The definitions below are a shallow embedding of the final revision of the
rating / statistics code (`process_data.py`, which consolidates the logic of
`utils/Player.py`, `utils/ranking_system.py` and `utils/data_cruncher.py`).
Python floats are modelled as rationals; `round(x, 2)` is modelled as
rounding to the nearest multiple of 1/100; Python integers are `Int`;
Python `%` with a positive right operand agrees with `Int.emod`.
-/

namespace ThreeOfSpades

/-- Constant BASE_RATING = 1000 from process_data.py / ranking_system.py. -/
def BASE_RATING : ℚ := 1000

/-- Constant DENOMINATOR = 200 from process_data.py / ranking_system.py. -/
def DENOMINATOR : ℚ := 200

/-- Model of Python `round(x, 2)`: round to the nearest hundredth. -/
def round2 (q : ℚ) : ℚ := ((round (100 * q) : ℤ) : ℚ) / 100

/-- Model of Python `round(x, 1)`: round to the nearest tenth. -/
def round1 (q : ℚ) : ℚ := ((round (10 * q) : ℤ) : ℚ) / 10

/-- Mirrors the `PlayerProfile` class of process_data.py (the consolidated
final revision of `utils/Player.py`): rating, career counters, streak
counters, milestone counters and named-bid counters.  `currentTournament`
is `None` at construction, hence an `Option`. -/
structure PlayerProfile where
  name : String
  rating : ℚ
  bidAndWon : ℕ
  bidAttempts : ℕ
  bidWins : ℕ
  careerGames : ℕ
  careerWins : ℕ
  winStreak : ℕ
  bestWinStreak : ℕ
  lossStreak : ℕ
  worstLossStreak : ℕ
  currentTournament : Option String
  numFivles : ℕ
  numTenples : ℕ
  fiveMottes : ℕ
  deriving Repr, DecidableEq, Inhabited

/-- Mirrors `PlayerProfile.__init__(name, rating=BASE_RATING)`: every counter
starts at zero and `currentTournament` starts as `None`. -/
def PlayerProfile.init (name : String) : PlayerProfile :=
  { name := name, rating := BASE_RATING, bidAndWon := 0, bidAttempts := 0,
    bidWins := 0, careerGames := 0, careerWins := 0, winStreak := 0,
    bestWinStreak := 0, lossStreak := 0, worstLossStreak := 0,
    currentTournament := none, numFivles := 0, numTenples := 0, fiveMottes := 0 }

/-- Mirrors `PlayerProfile.new_tournament_start`: record the new tournament
key and reset both streaks. -/
def new_tournament_start (p : PlayerProfile) (tourney_key : String) : PlayerProfile :=
  { p with currentTournament := some tourney_key, winStreak := 0, lossStreak := 0 }

/-- Mirrors `PlayerProfile._record_streaks` (identically `recordStreaks` in
`utils/Player.py`): on a win reset the loss streak, bump the win streak,
update the best streak, and fire the Fivle / Tenple milestones exactly when
the streak equals 5 / 10; mirror image on a loss with `fiveMottes`. -/
def record_streaks (p : PlayerProfile) (is_win : Bool) : PlayerProfile :=
  if is_win then
    let p1 := { p with lossStreak := 0, winStreak := p.winStreak + 1 }
    let p2 := { p1 with bestWinStreak := max p1.winStreak p1.bestWinStreak }
    let p3 := if p2.winStreak = 5 then { p2 with numFivles := p2.numFivles + 1 } else p2
    if p3.winStreak = 10 then { p3 with numTenples := p3.numTenples + 1 } else p3
  else
    let p1 := { p with winStreak := 0, lossStreak := p.lossStreak + 1 }
    let p2 := { p1 with worstLossStreak := max p1.lossStreak p1.worstLossStreak }
    if p2.lossStreak = 5 then { p2 with fiveMottes := p2.fiveMottes + 1 } else p2

/-- Mirrors `PlayerProfile.register_game` of process_data.py: tournament
boundary reset first, then the win / loss update (career counters, rating
re-rounded to 2 decimals, `bidAndWon`), then the named-bidder counters, and
finally the streak transition. -/
def register_game (p : PlayerProfile) (tourney_key : String) (adjusted_points : ℚ)
    (is_win : Bool) (bid_and_won : Bool) (is_named_bidder : Bool)
    (named_bid_won : Bool) : PlayerProfile :=
  let p0 := if p.currentTournament ≠ some tourney_key then new_tournament_start p tourney_key else p
  let p1 :=
    if is_win then
      let q := { p0 with careerGames := p0.careerGames + 1,
                         careerWins := p0.careerWins + 1,
                         rating := round2 (p0.rating + adjusted_points) }
      if bid_and_won then { q with bidAndWon := q.bidAndWon + 1 } else q
    else
      { p0 with careerGames := p0.careerGames + 1,
                rating := round2 (p0.rating - adjusted_points) }
  let p2 :=
    if is_named_bidder then
      { p1 with bidAttempts := p1.bidAttempts + 1,
                bidWins := if named_bid_won then p1.bidWins + 1 else p1.bidWins }
    else p1
  record_streaks p2 is_win

/-- Mirrors `PlayerProfile.win_percentage`: `int(100.0 * careerWins /
careerGames) if careerGames else 0`.  The quotient is nonnegative, so the
Python `int` truncation is the floor. -/
def win_percentage (p : PlayerProfile) : ℤ :=
  if p.careerGames = 0 then 0
  else ⌊(100 : ℚ) * p.careerWins / p.careerGames⌋

/-- Mirrors `PlayerProfile.bid_and_won_percentage`: same guard and formula
with `bidAndWon` as the numerator. -/
def bid_and_won_percentage (p : PlayerProfile) : ℤ :=
  if p.careerGames = 0 then 0
  else ⌊(100 : ℚ) * p.bidAndWon / p.careerGames⌋

/-- Mirrors `PlayerProfile.bid_win_rate`: `None` when `bidAttempts == 0`,
otherwise `round(100.0 * bidWins / bidAttempts, 1)`. -/
def bid_win_rate (p : PlayerProfile) : Option ℚ :=
  if p.bidAttempts = 0 then none
  else some (round1 ((100 : ℚ) * p.bidWins / p.bidAttempts))

/-- Applying `_record_streaks` `n` times with `is_win = True`: an
uninterrupted run of `n` wins. -/
def streakWins (p : PlayerProfile) : ℕ → PlayerProfile
  | 0 => p
  | n + 1 => record_streaks (streakWins p n) true

/-- Applying `_record_streaks` `n` times with `is_win = False`: an
uninterrupted run of `n` losses. -/
def streakLosses (p : PlayerProfile) : ℕ → PlayerProfile
  | 0 => p
  | n + 1 => record_streaks (streakLosses p n) false

section RecordStreaksLemmas

variable (p : PlayerProfile) (b : Bool)

theorem record_streaks_careerGames : (record_streaks p b).careerGames = p.careerGames := by
  cases b <;> (simp only [record_streaks]; split_ifs <;> simp_all)

theorem record_streaks_careerWins : (record_streaks p b).careerWins = p.careerWins := by
  cases b <;> (simp only [record_streaks]; split_ifs <;> simp_all)

theorem record_streaks_rating : (record_streaks p b).rating = p.rating := by
  cases b <;> (simp only [record_streaks]; split_ifs <;> simp_all)

theorem record_streaks_bidAndWon : (record_streaks p b).bidAndWon = p.bidAndWon := by
  cases b <;> (simp only [record_streaks]; split_ifs <;> simp_all)

theorem record_streaks_bidAttempts : (record_streaks p b).bidAttempts = p.bidAttempts := by
  cases b <;> (simp only [record_streaks]; split_ifs <;> simp_all)

theorem record_streaks_bidWins : (record_streaks p b).bidWins = p.bidWins := by
  cases b <;> (simp only [record_streaks]; split_ifs <;> simp_all)

theorem record_streaks_currentTournament :
    (record_streaks p b).currentTournament = p.currentTournament := by
  cases b <;> (simp only [record_streaks]; split_ifs <;> simp_all)

theorem record_streaks_winStreak_true : (record_streaks p true).winStreak = p.winStreak + 1 := by
  simp only [record_streaks]
  split_ifs <;> simp_all

theorem record_streaks_lossStreak_true : (record_streaks p true).lossStreak = 0 := by
  simp only [record_streaks]
  split_ifs <;> simp_all

theorem record_streaks_winStreak_false : (record_streaks p false).winStreak = 0 := by
  simp only [record_streaks]
  split_ifs <;> simp_all

theorem record_streaks_lossStreak_false :
    (record_streaks p false).lossStreak = p.lossStreak + 1 := by
  simp only [record_streaks]
  split_ifs <;> simp_all

theorem record_streaks_numFivles_true :
    (record_streaks p true).numFivles
      = p.numFivles + (if p.winStreak + 1 = 5 then 1 else 0) := by
  simp only [record_streaks]
  split_ifs <;> simp_all

theorem record_streaks_numTenples_true :
    (record_streaks p true).numTenples
      = p.numTenples + (if p.winStreak + 1 = 10 then 1 else 0) := by
  simp only [record_streaks]
  split_ifs <;> simp_all

theorem record_streaks_fiveMottes_false :
    (record_streaks p false).fiveMottes
      = p.fiveMottes + (if p.lossStreak + 1 = 5 then 1 else 0) := by
  simp only [record_streaks]
  split_ifs <;> simp_all

theorem record_streaks_numFivles_false :
    (record_streaks p false).numFivles = p.numFivles := by
  simp only [record_streaks]
  split_ifs <;> simp_all

theorem record_streaks_numTenples_false :
    (record_streaks p false).numTenples = p.numTenples := by
  simp only [record_streaks]
  split_ifs <;> simp_all

theorem record_streaks_fiveMottes_true :
    (record_streaks p true).fiveMottes = p.fiveMottes := by
  simp only [record_streaks]
  split_ifs <;> simp_all

end RecordStreaksLemmas

section RegisterGameLemmas

variable (p : PlayerProfile) (key : String) (pts : ℚ) (w bw nb nbw : Bool)

theorem register_game_careerGames :
    (register_game p key pts w bw nb nbw).careerGames = p.careerGames + 1 := by
  simp only [register_game, record_streaks_careerGames]
  split_ifs <;> simp_all [new_tournament_start]

theorem register_game_careerWins_true :
    (register_game p key pts true bw nb nbw).careerWins = p.careerWins + 1 := by
  simp only [register_game, record_streaks_careerWins]
  split_ifs <;> simp_all [new_tournament_start]

theorem register_game_careerWins_false :
    (register_game p key pts false bw nb nbw).careerWins = p.careerWins := by
  simp only [register_game, record_streaks_careerWins]
  split_ifs <;> simp_all [new_tournament_start]

theorem register_game_rating_true :
    (register_game p key pts true bw nb nbw).rating = round2 (p.rating + pts) := by
  simp only [register_game, record_streaks_rating]
  split_ifs <;> simp_all [new_tournament_start]

theorem register_game_rating_false :
    (register_game p key pts false bw nb nbw).rating = round2 (p.rating - pts) := by
  simp only [register_game, record_streaks_rating]
  split_ifs <;> simp_all [new_tournament_start]

theorem register_game_bidAndWon_true :
    (register_game p key pts true bw nb nbw).bidAndWon
      = p.bidAndWon + (if bw then 1 else 0) := by
  simp only [register_game, record_streaks_bidAndWon]
  split_ifs <;> simp_all [new_tournament_start]

theorem register_game_bidAndWon_false :
    (register_game p key pts false bw nb nbw).bidAndWon = p.bidAndWon := by
  simp only [register_game, record_streaks_bidAndWon]
  split_ifs <;> simp_all [new_tournament_start]

theorem register_game_currentTournament :
    (register_game p key pts w bw nb nbw).currentTournament = some key := by
  simp only [register_game, record_streaks_currentTournament]
  split_ifs <;> simp_all [new_tournament_start]

theorem register_game_winStreak_true :
    (register_game p key pts true bw nb nbw).winStreak
      = (if p.currentTournament = some key then p.winStreak else 0) + 1 := by
  simp only [register_game, record_streaks_winStreak_true]
  split_ifs <;> simp_all [new_tournament_start]

theorem register_game_lossStreak_true :
    (register_game p key pts true bw nb nbw).lossStreak = 0 := by
  simp only [register_game, record_streaks_lossStreak_true]

theorem register_game_winStreak_false :
    (register_game p key pts false bw nb nbw).winStreak = 0 := by
  simp only [register_game, record_streaks_winStreak_false]

theorem register_game_lossStreak_false :
    (register_game p key pts false bw nb nbw).lossStreak
      = (if p.currentTournament = some key then p.lossStreak else 0) + 1 := by
  simp only [register_game, record_streaks_lossStreak_false]
  split_ifs <;> simp_all [new_tournament_start]

end RegisterGameLemmas

theorem streakWins_fields (p : PlayerProfile) (hp : p.winStreak = 0) (n : ℕ) :
    (streakWins p n).winStreak = n ∧
    (streakWins p n).numFivles = p.numFivles + (if 5 ≤ n then 1 else 0) ∧
    (streakWins p n).numTenples = p.numTenples + (if 10 ≤ n then 1 else 0) := by
  induction n with
  | zero => simp [streakWins, hp]
  | succ n ih =>
    obtain ⟨h1, h2, h3⟩ := ih
    refine ⟨?_, ?_, ?_⟩
    · simp [streakWins, record_streaks_winStreak_true, h1]
    · rw [streakWins, record_streaks_numFivles_true, h1, h2]
      split_ifs <;> omega
    · rw [streakWins, record_streaks_numTenples_true, h1, h3]
      split_ifs <;> omega

theorem streakLosses_fields (q : PlayerProfile) (hq : q.lossStreak = 0) (m : ℕ) :
    (streakLosses q m).lossStreak = m ∧
    (streakLosses q m).fiveMottes = q.fiveMottes + (if 5 ≤ m then 1 else 0) := by
  induction m with
  | zero => simp [streakLosses, hq]
  | succ m ih =>
    obtain ⟨h1, h2⟩ := ih
    refine ⟨?_, ?_⟩
    · simp [streakLosses, record_streaks_lossStreak_false, h1]
    · rw [streakLosses, record_streaks_fiveMottes_false, h1, h2]
      split_ifs <;> omega

/-- C3: the percentage computations are total and guarded: `win_percentage`
and `bid_and_won_percentage` return 0 (not an error) when `careerGames = 0`,
and `bid_win_rate` returns `none` (not an error) when `bidAttempts = 0`. -/
theorem C3_percentage_guards (p : PlayerProfile) :
    (p.careerGames = 0 → win_percentage p = 0 ∧ bid_and_won_percentage p = 0) ∧
    (p.bidAttempts = 0 → bid_win_rate p = none) := by
  refine ⟨fun h => ?_, fun h => ?_⟩
  · simp [win_percentage, bid_and_won_percentage, h]
  · simp [bid_win_rate, h]

theorem C3_witness :
    win_percentage (PlayerProfile.init "A") = 0 ∧
    bid_and_won_percentage (PlayerProfile.init "A") = 0 ∧
    bid_win_rate (PlayerProfile.init "A") = none :=
  ⟨((C3_percentage_guards (PlayerProfile.init "A")).1 rfl).1,
   ((C3_percentage_guards (PlayerProfile.init "A")).1 rfl).2,
   (C3_percentage_guards (PlayerProfile.init "A")).2 rfl⟩

/-- C5: the milestone counters are edge-triggered.  Starting from a zero win
streak, an uninterrupted run of `n ≤ 12` wins bumps `numFivles` exactly once
(as soon as the streak reaches 5) and `numTenples` exactly once (as soon as
it reaches 10), with no further bumps up to 12; symmetrically a run of
`m ≤ 12` losses bumps `fiveMottes` exactly once, when the loss streak
reaches 5. -/
theorem C5_milestones_edge_triggered (p q : PlayerProfile) (n m : ℕ)
    (hp : p.winStreak = 0) (hq : q.lossStreak = 0) (hn : n ≤ 12) (hm : m ≤ 12) :
    (streakWins p n).numFivles = p.numFivles + (if 5 ≤ n then 1 else 0) ∧
    (streakWins p n).numTenples = p.numTenples + (if 10 ≤ n then 1 else 0) ∧
    (streakLosses q m).fiveMottes = q.fiveMottes + (if 5 ≤ m then 1 else 0) :=
  ⟨(streakWins_fields p hp n).2.1, (streakWins_fields p hp n).2.2,
   (streakLosses_fields q hq m).2⟩

theorem C5_witness :
    (streakWins (PlayerProfile.init "A") 12).numFivles
        = (PlayerProfile.init "A").numFivles + (if 5 ≤ 12 then 1 else 0) ∧
    (streakWins (PlayerProfile.init "A") 12).numTenples
        = (PlayerProfile.init "A").numTenples + (if 10 ≤ 12 then 1 else 0) ∧
    (streakLosses (PlayerProfile.init "B") 12).fiveMottes
        = (PlayerProfile.init "B").fiveMottes + (if 5 ≤ 12 then 1 else 0) :=
  C5_milestones_edge_triggered (PlayerProfile.init "A") (PlayerProfile.init "B")
    12 12 rfl rfl (by decide) (by decide)

/-- C6: processing a round always leaves `currentTournament` equal to the
round's tournament key; when the key differs from the player's current one,
both streaks are reset before the streak transition, so the first win in a
new tournament yields `winStreak = 1` (and the first loss `lossStreak = 1`)
whatever streak was active before; when the key is unchanged (mid-
tournament) no reset occurs and the active streak simply continues. -/
theorem C6_tournament_boundary_reset (p : PlayerProfile) (key : String) (pts : ℚ)
    (bw nb nbw : Bool) :
    (∀ w : Bool, (register_game p key pts w bw nb nbw).currentTournament = some key) ∧
    (p.currentTournament ≠ some key →
        (register_game p key pts true bw nb nbw).winStreak = 1 ∧
        (register_game p key pts true bw nb nbw).lossStreak = 0 ∧
        (register_game p key pts false bw nb nbw).lossStreak = 1 ∧
        (register_game p key pts false bw nb nbw).winStreak = 0) ∧
    (p.currentTournament = some key →
        (register_game p key pts true bw nb nbw).winStreak = p.winStreak + 1 ∧
        (register_game p key pts false bw nb nbw).lossStreak = p.lossStreak + 1) := by
  refine ⟨fun w => register_game_currentTournament p key pts w bw nb nbw,
    fun h => ⟨?_, ?_, ?_, ?_⟩, fun h => ⟨?_, ?_⟩⟩
  · rw [register_game_winStreak_true, if_neg h]
  · exact register_game_lossStreak_true p key pts bw nb nbw
  · rw [register_game_lossStreak_false, if_neg h]
  · exact register_game_winStreak_false p key pts bw nb nbw
  · rw [register_game_winStreak_true, if_pos h]
  · rw [register_game_lossStreak_false, if_pos h]

theorem C6_witness :
    ((PlayerProfile.init "A").currentTournament ≠ some "T2" ∧
      (register_game (PlayerProfile.init "A") "T2" 1 true false false false).winStreak = 1) ∧
    (((new_tournament_start (PlayerProfile.init "A") "T1").currentTournament = some "T1") ∧
      (register_game (new_tournament_start (PlayerProfile.init "A") "T1") "T1" 1 true
          false false false).winStreak
        = (new_tournament_start (PlayerProfile.init "A") "T1").winStreak + 1) :=
  ⟨⟨by decide,
    ((C6_tournament_boundary_reset (PlayerProfile.init "A") "T2" 1 false false false).2.1
      (by decide)).1⟩,
   ⟨rfl,
    ((C6_tournament_boundary_reset (new_tournament_start (PlayerProfile.init "A") "T1")
        "T1" 1 false false false).2.2 rfl).1⟩⟩

/-- One round row of a tournament CSV: the participating players with their
raw integer scores, in column order, plus the optional named bidder (the
`Bidder` column when it exists and names a player). -/
structure Row where
  scores : List (String × ℤ)
  bidder : Option String
  deriving Repr, DecidableEq

/-- The rating engine's state: the `player_map` of process_data.py, as a
total map (absent players sit at their lazily-created initial profile). -/
def PlayerMap : Type := String → PlayerProfile

/-- Winning team of a round: participants with score > 0
(`if score > 0: winning_team.append(...)`). -/
def winners (row : Row) : List (String × ℤ) :=
  row.scores.filter fun ps => 0 < ps.2

/-- Losing team of a round: the remaining participants (score ≤ 0). -/
def losers (row : Row) : List (String × ℤ) :=
  row.scores.filter fun ps => ¬ 0 < ps.2

/-- Python `min` over a list of integers (only used on nonempty lists). -/
def minD : List ℤ → ℤ
  | [] => 0
  | x :: xs => xs.foldl min x

/-- Arithmetic mean of the ratings of a team, read from the map before any
update of the round (`sum(pl.rating for pl in team) / len(team)`). -/
def avgRating (m : PlayerMap) (l : List (String × ℤ)) : ℚ :=
  (l.map fun ps => (m ps.1).rating).sum / l.length

/-- Mirrors `_get_adjustment_multiplier(rating_diff, weight)`: winsorize
`rating_diff / BASE_RATING` into [-0.5, 0.5] and return
`(weight / DENOMINATOR) * (1 - winsorized)`. -/
def get_adjustment_multiplier (rating_diff weight : ℚ) : ℚ :=
  let winsorized := max (-(1 / 2)) (min (1 / 2) (rating_diff / BASE_RATING))
  let adjustment_factor := 1 - winsorized
  (weight / DENOMINATOR) * adjustment_factor

/-- Point update of a single named profile inside the map; every per-round
mutation of process_data.py touches exactly the profile object of one
player. -/
def updateOne (f : String × ℤ → PlayerProfile → PlayerProfile)
    (m : PlayerMap) (ps : String × ℤ) : PlayerMap :=
  fun q => if q = ps.1 then f ps (m ps.1) else m q

/-- Mirrors one iteration of the per-game loop of
`compute_overall_rankings`: partition into winning / losing team, skip the
round when either is empty, otherwise compute the multiplier from the
pre-round average ratings, let `bid` be the minimum winning score, and call
`register_game` for every winner (with their own score) and then for every
loser (with `bid`). -/
def process_row (m : PlayerMap) (tourney_key : String) (weight : ℚ) (row : Row) :
    PlayerMap :=
  let winning := winners row
  let losing := losers row
  if winning = [] ∨ losing = [] then m
  else
    let avg_win_r := avgRating m winning
    let avg_lose_r := avgRating m losing
    let rating_diff := avg_win_r - avg_lose_r
    let adj_mult := get_adjustment_multiplier rating_diff weight
    let bid := minD (winning.map Prod.snd)
    let m1 := winning.foldl
      (updateOne fun ps p =>
        register_game p tourney_key ((ps.2 : ℚ) * adj_mult) true
          (decide (bid < ps.2)) (decide (row.bidder = some ps.1))
          (decide (row.bidder = some ps.1))) m
    losing.foldl
      (updateOne fun ps p =>
        register_game p tourney_key ((bid : ℚ) * adj_mult) false false
          (decide (row.bidder = some ps.1)) false) m1

section FoldLemmas

variable (f : String × ℤ → PlayerProfile → PlayerProfile) (m : PlayerMap)

theorem foldl_updateOne_not_mem (l : List (String × ℤ)) (q : String)
    (hq : q ∉ l.map Prod.fst) : (l.foldl (updateOne f) m) q = m q := by
  induction l generalizing m with
  | nil => rfl
  | cons a l ih =>
    simp only [List.map_cons, List.mem_cons, not_or] at hq
    rw [List.foldl_cons, ih _ hq.2]
    simp [updateOne, hq.1]

theorem foldl_updateOne_mem (l : List (String × ℤ)) (q : String) (s : ℤ)
    (hnd : (l.map Prod.fst).Nodup) (hmem : (q, s) ∈ l) :
    (l.foldl (updateOne f) m) q = f (q, s) (m q) := by
  induction l generalizing m with
  | nil => cases hmem
  | cons a l ih =>
    rw [List.foldl_cons]
    simp only [List.map_cons, List.nodup_cons] at hnd
    rcases List.mem_cons.mp hmem with h | h
    · subst h
      rw [foldl_updateOne_not_mem f _ l q hnd.1]
      simp [updateOne]
    · have hq : q ≠ a.1 := by
        intro e
        exact hnd.1 (e ▸ List.mem_map_of_mem Prod.fst h)
      rw [ih _ hnd.2 h]
      simp [updateOne, hq]

end FoldLemmas

theorem nodup_fst_inj {l : List (String × ℤ)} (h : (l.map Prod.fst).Nodup)
    {q : String} {s1 s2 : ℤ} (h1 : (q, s1) ∈ l) (h2 : (q, s2) ∈ l) : s1 = s2 := by
  induction l with
  | nil => cases h1
  | cons a l ih =>
    rcases List.mem_cons.mp h1 with e1 | e1 <;> rcases List.mem_cons.mp h2 with e2 | e2
    · rw [← e1] at e2
      exact (congrArg Prod.snd e2).symm
    · subst e1
      exfalso
      simp only [List.map_cons, List.nodup_cons] at h
      exact h.1 (List.mem_map_of_mem Prod.fst e2)
    · subst e2
      exfalso
      simp only [List.map_cons, List.nodup_cons] at h
      exact h.1 (List.mem_map_of_mem Prod.fst e1)
    · simp only [List.map_cons, List.nodup_cons] at h
      exact ih h.2 e1 e2

theorem winners_sub_nodup {row : Row} (hnd : (row.scores.map Prod.fst).Nodup) :
    ((winners row).map Prod.fst).Nodup :=
  hnd.sublist (List.Sublist.map Prod.fst (List.filter_sublist row.scores))

theorem losers_sub_nodup {row : Row} (hnd : (row.scores.map Prod.fst).Nodup) :
    ((losers row).map Prod.fst).Nodup :=
  hnd.sublist (List.Sublist.map Prod.fst (List.filter_sublist row.scores))

theorem winners_losers_disjoint {row : Row} (hnd : (row.scores.map Prod.fst).Nodup)
    {q : String} (hw : q ∈ (winners row).map Prod.fst) :
    q ∉ (losers row).map Prod.fst := by
  intro hl
  obtain ⟨⟨q1, s1⟩, hm1, he1⟩ := List.mem_map.mp hw
  obtain ⟨⟨q2, s2⟩, hm2, he2⟩ := List.mem_map.mp hl
  simp only [winners, List.mem_filter] at hm1
  simp only [losers, List.mem_filter] at hm2
  cases he1; cases he2
  have hss : s1 = s2 := nodup_fst_inj hnd hm1.1 hm2.1
  subst hss
  have hwin : 0 < s1 := by simpa using hm1.2
  have hlos : ¬ 0 < s1 := by simpa using hm2.2
  exact hlos hwin

theorem process_row_skip (m : PlayerMap) (key : String) (weight : ℚ) (row : Row)
    (h : winners row = [] ∨ losers row = []) :
    process_row m key weight row = m := by
  simp only [process_row]
  rw [if_pos h]

theorem process_row_winner (m : PlayerMap) (key : String) (weight : ℚ) (row : Row)
    (hnd : (row.scores.map Prod.fst).Nodup) (hl : losers row ≠ [])
    {q : String} {s : ℤ} (hqs : (q, s) ∈ winners row) :
    process_row m key weight row q =
      register_game (m q) key
        ((s : ℚ) * get_adjustment_multiplier
            (avgRating m (winners row) - avgRating m (losers row)) weight)
        true (decide (minD ((winners row).map Prod.snd) < s))
        (decide (row.bidder = some q)) (decide (row.bidder = some q)) := by
  have hw : winners row ≠ [] := by
    intro e
    rw [e] at hqs
    cases hqs
  have hqw : q ∈ (winners row).map Prod.fst := List.mem_map_of_mem Prod.fst hqs
  simp only [process_row]
  rw [if_neg (by simp [hw, hl])]
  rw [foldl_updateOne_not_mem _ _ _ _ (winners_losers_disjoint hnd hqw)]
  rw [foldl_updateOne_mem _ _ _ _ _ (winners_sub_nodup hnd) hqs]

theorem process_row_loser (m : PlayerMap) (key : String) (weight : ℚ) (row : Row)
    (hnd : (row.scores.map Prod.fst).Nodup) (hw : winners row ≠ [])
    {q : String} {s : ℤ} (hqs : (q, s) ∈ losers row) :
    process_row m key weight row q =
      register_game (m q) key
        (((minD ((winners row).map Prod.snd) : ℤ) : ℚ) * get_adjustment_multiplier
            (avgRating m (winners row) - avgRating m (losers row)) weight)
        false false (decide (row.bidder = some q)) false := by
  have hl : losers row ≠ [] := by
    intro e
    rw [e] at hqs
    cases hqs
  have hql : q ∈ (losers row).map Prod.fst := List.mem_map_of_mem Prod.fst hqs
  have hqnw : q ∉ (winners row).map Prod.fst := by
    intro hqw
    exact winners_losers_disjoint hnd hqw hql
  simp only [process_row]
  rw [if_neg (by simp [hw, hl])]
  rw [foldl_updateOne_mem _ _ _ _ _ (losers_sub_nodup hnd) hqs]
  rw [foldl_updateOne_not_mem _ _ _ _ hqnw]

theorem process_row_not_participant (m : PlayerMap) (key : String) (weight : ℚ)
    (row : Row) (q : String) (hq : q ∉ row.scores.map Prod.fst) :
    process_row m key weight row q = m q := by
  have hqw : q ∉ (winners row).map Prod.fst := fun hmem =>
    hq ((List.Sublist.map Prod.fst (List.filter_sublist row.scores)).subset hmem)
  have hql : q ∉ (losers row).map Prod.fst := fun hmem =>
    hq ((List.Sublist.map Prod.fst (List.filter_sublist row.scores)).subset hmem)
  simp only [process_row]
  split_ifs with h
  · rfl
  · rw [foldl_updateOne_not_mem _ _ _ _ hql, foldl_updateOne_not_mem _ _ _ _ hqw]

/-- C1: every round is either silently skipped (empty winning or losing
set: the map is returned untouched, so no profile field of any player
changes) or fully processed, in which case every participant's
`careerGames` goes up by exactly 1 and non-participants are untouched. -/
theorem C1_round_dichotomy (m : PlayerMap) (key : String) (weight : ℚ) (row : Row)
    (hnd : (row.scores.map Prod.fst).Nodup) :
    (winners row = [] ∨ losers row = [] → process_row m key weight row = m) ∧
    (winners row ≠ [] → losers row ≠ [] →
      (∀ ps ∈ row.scores,
          (process_row m key weight row ps.1).careerGames = (m ps.1).careerGames + 1) ∧
      (∀ q : String, q ∉ row.scores.map Prod.fst →
          process_row m key weight row q = m q)) := by
  refine ⟨process_row_skip m key weight row, fun hw hl => ⟨?_, ?_⟩⟩
  · rintro ⟨q, s⟩ hmem
    by_cases hpos : 0 < s
    · have hqs : (q, s) ∈ winners row := List.mem_filter.mpr ⟨hmem, by simpa using hpos⟩
      rw [process_row_winner m key weight row hnd hl hqs, register_game_careerGames]
    · have hqs : (q, s) ∈ losers row := List.mem_filter.mpr ⟨hmem, by simpa using hpos⟩
      rw [process_row_loser m key weight row hnd hw hqs, register_game_careerGames]
  · intro q hq
    exact process_row_not_participant m key weight row q hq

/-- Concrete round from the spec's testable-properties section: winners
A = 120 and B = 80 (so bid = 80), loser C, everyone starting at rating
1000, tournament weight 1. -/
def exampleRow : Row := { scores := [("A", 120), ("B", 80), ("C", 0)], bidder := none }

/-- Fresh player map: every name at its initial profile. -/
def exampleMap : PlayerMap := fun name => PlayerProfile.init name

/-- Degenerate round in which nobody has a positive score. -/
def degenerateRow : Row := { scores := [("A", 0), ("B", 0)], bidder := none }

theorem C1_witness :
    process_row exampleMap "T1" 1 degenerateRow = exampleMap ∧
    (process_row exampleMap "T1" 1 exampleRow "A").careerGames
      = (exampleMap "A").careerGames + 1 ∧
    (process_row exampleMap "T1" 1 exampleRow "C").careerGames
      = (exampleMap "C").careerGames + 1 := by
  refine ⟨(C1_round_dichotomy exampleMap "T1" 1 degenerateRow (by decide)).1
      (Or.inl (by decide)), ?_, ?_⟩
  · exact ((C1_round_dichotomy exampleMap "T1" 1 exampleRow (by decide)).2
      (by decide) (by decide)).1 ("A", 120) (by decide)
  · exact ((C1_round_dichotomy exampleMap "T1" 1 exampleRow (by decide)).2
      (by decide) (by decide)).1 ("C", 0) (by decide)

/-- C2: in a processed round the per-point multiplier is
`(weight / 200) * (1 - w)` with `w` the winsorization of
`(avgWinRating - avgLoseRating) / 1000` into [-1/2, 1/2], where the
averages are the arithmetic mean ratings of the two sides before the
update; each winner's rating becomes `round2(old + ownScore * mult)` and
each loser's becomes `round2(old - bid * mult)` with `bid` the minimum
winning score. -/
theorem C2_rating_update (m : PlayerMap) (key : String) (weight : ℚ) (row : Row)
    (hnd : (row.scores.map Prod.fst).Nodup)
    (hw : winners row ≠ []) (hl : losers row ≠ [])
    (w mult : ℚ) (bid : ℤ)
    (hwdef : w = max (-(1 / 2)) (min (1 / 2)
        ((avgRating m (winners row) - avgRating m (losers row)) / 1000)))
    (hmult : mult = (weight / 200) * (1 - w))
    (hbid : bid = minD ((winners row).map Prod.snd)) :
    (∀ ps ∈ winners row,
        (process_row m key weight row ps.1).rating
          = round2 ((m ps.1).rating + (ps.2 : ℚ) * mult)) ∧
    (∀ ps ∈ losers row,
        (process_row m key weight row ps.1).rating
          = round2 ((m ps.1).rating - (bid : ℚ) * mult)) := by
  have hm : mult = get_adjustment_multiplier
      (avgRating m (winners row) - avgRating m (losers row)) weight := by
    rw [hmult, hwdef]
    simp [get_adjustment_multiplier, BASE_RATING, DENOMINATOR]
  constructor
  · rintro ⟨q, s⟩ hmem
    rw [process_row_winner m key weight row hnd hl hmem, register_game_rating_true, hm]
  · rintro ⟨q, s⟩ hmem
    rw [process_row_loser m key weight row hnd hw hmem, register_game_rating_false, hm, hbid]

theorem C2_witness :
    (process_row exampleMap "T1" 1 exampleRow "A").rating = 1000.6 ∧
    (process_row exampleMap "T1" 1 exampleRow "B").rating = 1000.4 ∧
    (process_row exampleMap "T1" 1 exampleRow "C").rating = 999.6 := by
  have h := C2_rating_update exampleMap "T1" 1 exampleRow (by decide) (by decide)
    (by decide) 0 (1 / 200) 80
    (by norm_num [avgRating, winners, losers, exampleRow, exampleMap,
      PlayerProfile.init, BASE_RATING])
    (by norm_num) (by decide)
  refine ⟨?_, ?_, ?_⟩
  · have ha := h.1 ("A", 120) (by decide)
    rw [ha]
    norm_num [exampleMap, PlayerProfile.init, BASE_RATING, round2, round_eq]
  · have hb := h.1 ("B", 80) (by decide)
    rw [hb]
    norm_num [exampleMap, PlayerProfile.init, BASE_RATING, round2, round_eq]
  · have hc := h.2 ("C", 0) (by decide)
    rw [hc]
    norm_num [exampleMap, PlayerProfile.init, BASE_RATING, round2, round_eq]

/-- C7: in a processed round a winner's `bidAndWon` goes up by 1 exactly
when the winner's own score strictly exceeds `bid` (the minimum winning
score); a winner at exactly `bid`, and every loser, keep `bidAndWon`
unchanged. -/
theorem C7_bid_and_won_increment (m : PlayerMap) (key : String) (weight : ℚ)
    (row : Row) (hnd : (row.scores.map Prod.fst).Nodup)
    (hw : winners row ≠ []) (hl : losers row ≠ [])
    (bid : ℤ) (hbid : bid = minD ((winners row).map Prod.snd)) :
    (∀ ps ∈ winners row,
        (process_row m key weight row ps.1).bidAndWon
          = (m ps.1).bidAndWon + (if bid < ps.2 then 1 else 0)) ∧
    (∀ ps ∈ losers row,
        (process_row m key weight row ps.1).bidAndWon = (m ps.1).bidAndWon) := by
  subst hbid
  constructor
  · rintro ⟨q, s⟩ hmem
    rw [process_row_winner m key weight row hnd hl hmem, register_game_bidAndWon_true]
    simp
  · rintro ⟨q, s⟩ hmem
    rw [process_row_loser m key weight row hnd hw hmem, register_game_bidAndWon_false]

theorem C7_witness :
    (process_row exampleMap "T1" 1 exampleRow "A").bidAndWon
      = (exampleMap "A").bidAndWon + 1 ∧
    (process_row exampleMap "T1" 1 exampleRow "B").bidAndWon
      = (exampleMap "B").bidAndWon ∧
    (process_row exampleMap "T1" 1 exampleRow "C").bidAndWon
      = (exampleMap "C").bidAndWon := by
  have h := C7_bid_and_won_increment exampleMap "T1" 1 exampleRow (by decide)
    (by decide) (by decide) 80 (by decide)
  refine ⟨?_, ?_, ?_⟩
  · have ha := h.1 ("A", 120) (by decide)
    rw [ha]
    norm_num
  · have hb := h.1 ("B", 80) (by decide)
    rw [hb]
    norm_num
  · exact h.2 ("C", 0) (by decide)

/-- Sum of the scores of a round (`scores.sum()` in get_bid_and_won_stats). -/
def rowTotal (scores : List (String × ℤ)) : ℤ := (scores.map Prod.snd).sum

/-- Maximum single score of a round (`scores.max()`), defaulting to 0 on an
empty round (the function is only ever applied to nonempty rounds). -/
def rowMaxD : List (String × ℤ) → ℤ
  | [] => 0
  | ps :: rest => (rest.map Prod.snd).foldl max ps.2

/-- Mirrors pandas `Series.idxmax`: the first label holding the maximum. -/
def idxmax (scores : List (String × ℤ)) : Option String :=
  (scores.find? fun ps => ps.2 = rowMaxD scores).map Prod.fst

/-- Mirrors one iteration of `get_bid_and_won_stats` in process_data.py:
when `max_score > 0` and `total % max_score != 0`, the holder of the
maximum score is credited, otherwise nobody is. -/
def bidCreditOfRow (scores : List (String × ℤ)) : Option String :=
  let total := rowTotal scores
  let max_score := rowMaxD scores
  if 0 < max_score ∧ total % max_score ≠ 0 then idxmax scores else none

/-- Heuristic bid-and-won tally of one player across a tournament's rounds
(the `bid_and_win` dictionary of `get_bid_and_won_stats`). -/
def get_bid_and_won_stats (rounds : List (List (String × ℤ))) (player : String) : ℕ :=
  (rounds.filterMap bidCreditOfRow).count player

/-- The concrete round from the spec: scores A 0, B 0, C 300, D 200. -/
def heuristicRow : List (String × ℤ) := [("A", 0), ("B", 0), ("C", 300), ("D", 200)]

theorem idxmax_eq (scores : List (String × ℤ)) (p : String)
    (hp : (p, rowMaxD scores) ∈ scores)
    (huniq : ∀ ps ∈ scores, ps.2 = rowMaxD scores → ps.1 = p) :
    idxmax scores = some p := by
  have hsome : (scores.find? fun ps => ps.2 = rowMaxD scores).isSome := by
    rw [List.find?_isSome]
    exact ⟨(p, rowMaxD scores), hp, by simp⟩
  obtain ⟨x, hx⟩ := Option.isSome_iff_exists.mp hsome
  have hx1 : x ∈ scores := List.mem_of_find?_eq_some hx
  have hx2 : x.2 = rowMaxD scores := by simpa using List.find?_some hx
  have hx3 : x.1 = p := huniq x hx1 hx2
  simp [idxmax, hx, hx3]

/-- C4: the bid-detection heuristic credits exactly the (unique) holder of
the maximum score, and does so precisely when `maxScore > 0` and
`total % maxScore ≠ 0`; a round whose maximum score is not positive
credits no one.  On the spec's concrete round {A 0, B 0, C 300, D 200}
the tally credits C exactly once and nobody else. -/
theorem C4_bid_heuristic (scores : List (String × ℤ)) (p : String)
    (hp : (p, rowMaxD scores) ∈ scores)
    (huniq : ∀ ps ∈ scores, ps.2 = rowMaxD scores → ps.1 = p) :
    (bidCreditOfRow scores = some p ↔
        0 < rowMaxD scores ∧ rowTotal scores % rowMaxD scores ≠ 0) ∧
    (rowMaxD scores ≤ 0 → bidCreditOfRow scores = none) ∧
    get_bid_and_won_stats [heuristicRow] "C" = 1 ∧
    get_bid_and_won_stats [heuristicRow] "A" = 0 ∧
    get_bid_and_won_stats [heuristicRow] "B" = 0 ∧
    get_bid_and_won_stats [heuristicRow] "D" = 0 := by
  refine ⟨?_, ?_, by decide, by decide, by decide, by decide⟩
  · constructor
    · intro hcredit
      by_contra hcond
      simp only [bidCreditOfRow, if_neg hcond] at hcredit
      cases hcredit
    · intro hcond
      simp only [bidCreditOfRow, if_pos hcond]
      exact idxmax_eq scores p hp huniq
  · intro hle
    simp only [bidCreditOfRow]
    rw [if_neg]
    intro hcond
    exact absurd hcond.1 (not_lt.mpr hle)

theorem C4_witness :
    bidCreditOfRow heuristicRow = some "C" ∧
    bidCreditOfRow [("A", -5), ("B", -10)] = none :=
  ⟨(C4_bid_heuristic heuristicRow "C" (by decide) (by decide)).1.mpr (by decide),
   (C4_bid_heuristic [("A", -5), ("B", -10)] "A" (by decide) (by decide)).2.1 (by decide)⟩

/-- Python object heap for profile objects: the index in the list is the
object's identity.  `player_map` holds indices of live objects; a snapshot
dictionary holds indices of copies. -/
def heapSnapshot (h : List PlayerProfile) (i : ℕ) : List PlayerProfile × ℕ :=
  (h ++ [h.getD i default], h.length)

/-- In-place mutation of the object with identity `i`, as `register_game`
mutates a live profile (`copy.copy` in `snapshot()` allocates a fresh
object, so its fields — all immutable scalars — are value-copied). -/
def heapMutate (h : List PlayerProfile) (i : ℕ)
    (f : PlayerProfile → PlayerProfile) : List PlayerProfile :=
  h.set i (f (h.getD i default))

/-- Run a sequence of in-place mutations against the heap. -/
def heapRun (h : List PlayerProfile)
    (ms : List (ℕ × (PlayerProfile → PlayerProfile))) : List PlayerProfile :=
  ms.foldl (fun hh m => heapMutate hh m.1 m.2) h

theorem heapRun_get_untouched (s : ℕ)
    (ms : List (ℕ × (PlayerProfile → PlayerProfile)))
    (h : List PlayerProfile) (hms : ∀ m ∈ ms, m.1 ≠ s) :
    (heapRun h ms)[s]? = h[s]? := by
  induction ms generalizing h with
  | nil => rfl
  | cons a ms ih =>
    have ha : a.1 ≠ s := hms a (List.mem_cons_self a ms)
    rw [heapRun, List.foldl_cons, ← heapRun, ih _ fun m hm => hms m (List.mem_cons_of_mem a hm)]
    simp [heapMutate, List.getElem?_set_ne ha]

/-- C9: a snapshot is a value copy.  After taking a snapshot of the profile
with identity `i`, any sequence of later mutations of live objects (all of
which have identities below the fresh copy's) leaves every stored field of
the snapshot object exactly as it was when the snapshot was taken. -/
theorem C9_snapshot_immutable (h : List PlayerProfile) (i : ℕ)
    (ms : List (ℕ × (PlayerProfile → PlayerProfile)))
    (hms : ∀ m ∈ ms, m.1 < h.length) :
    (heapRun (heapSnapshot h i).1 ms)[(heapSnapshot h i).2]? = some (h.getD i default) := by
  rw [heapRun_get_untouched (heapSnapshot h i).2 ms (heapSnapshot h i).1
    fun m hm => Nat.ne_of_lt (hms m hm)]
  simp only [heapSnapshot]
  exact List.getElem?_concat_length h (h.getD i default)

theorem C9_witness :
    (heapRun (heapSnapshot [PlayerProfile.init "A"] 0).1
        [(0, fun p => register_game p "T1" 1 true false false false)])[
      (heapSnapshot [PlayerProfile.init "A"] 0).2]?
      = some ([PlayerProfile.init "A"].getD 0 default) := by
  apply C9_snapshot_immutable [PlayerProfile.init "A"] 0
  intro m hm
  rw [List.mem_singleton] at hm
  subst hm
  exact Nat.zero_lt_one

/-- The `Result` column of the melted long table of `get_pairwise_stats` /
`get_tri_stats`: `True` stands for the string `Win` (points > 0), `False`
for `Lose`. -/
def resultOf (points : ℤ) : Bool := decide (0 < points)

/-- One row of the melted long table: `Game ID`, `Player`, `Points`. -/
structure MeltRow where
  gameId : ℕ
  player : String
  points : ℤ
  deriving Repr, DecidableEq

/-- Mirrors `raw_df.melt(id_vars=[Game ID], value_vars=players)`: one long
row per (player column, game), where game `i` (0-based position) carries
`Game ID = i + 1` and a round is the list of scores aligned with the
player-column list (missing entries read as 0, per the loader's fillna). -/
def melt (players : List String) (rounds : List (List ℤ)) : List MeltRow :=
  players.enum.flatMap fun jp =>
    rounds.enum.map fun ir =>
      { gameId := ir.1 + 1, player := jp.2, points := ir.2.getD jp.1 0 }

/-- Cartesian product of two copies of the long table; together with the
key-equality filter below this is the multiset of rows of the pandas inner
self-join `melt.merge(melt, on=[Game ID, Result])`. -/
def pairProduct (long : List MeltRow) : List (MeltRow × MeltRow) :=
  long.flatMap fun a => long.map fun b => (a, b)

/-- Triple product, modelling the double self-join of `get_tri_stats`
(`melt.merge(melt).merge(melt)` on the same key columns). -/
def triProduct (long : List MeltRow) : List (MeltRow × MeltRow × MeltRow) :=
  long.flatMap fun a => (pairProduct long).map fun bc => (a, bc)

/-- Mirrors `get_pairwise_stats` up to (not including) the groupby: the
self-join on `(Game ID, Result)` followed by the `Player_x != Player_y`
and `Player_x < Player_y` dedup filters. -/
def pairRows (players : List String) (rounds : List (List ℤ)) :
    List (MeltRow × MeltRow) :=
  let long := melt players rounds
  (((pairProduct long).filter fun ab =>
      decide (ab.1.gameId = ab.2.gameId)
        && decide (resultOf ab.1.points = resultOf ab.2.points)).filter fun ab =>
      decide (ab.1.player ≠ ab.2.player)).filter fun ab =>
      decide (ab.1.player < ab.2.player)

/-- Mirrors `get_tri_stats` up to the groupby: double self-join on
`(Game ID, Result)` followed by the three inequality filters and the three
strict-order dedup filters, in source order. -/
def triRows (players : List String) (rounds : List (List ℤ)) :
    List (MeltRow × MeltRow × MeltRow) :=
  let long := melt players rounds
  ((((((((triProduct long).filter fun t =>
      decide (t.1.gameId = t.2.1.gameId)
        && decide (resultOf t.1.points = resultOf t.2.1.points)).filter fun t =>
      decide (t.1.gameId = t.2.2.gameId)
        && decide (resultOf t.1.points = resultOf t.2.2.points)).filter fun t =>
      decide (t.1.player ≠ t.2.1.player)).filter fun t =>
      decide (t.2.1.player ≠ t.2.2.player)).filter fun t =>
      decide (t.1.player ≠ t.2.2.player)).filter fun t =>
      decide (t.1.player < t.2.1.player)).filter fun t =>
      decide (t.2.1.player < t.2.2.player)).filter fun t =>
      decide (t.1.player < t.2.2.player)

/-- Number of rows the pair aggregation receives for the unordered group
{p, q} in game `g` — the per-game contribution to that group's
`TotalGames` (the groupby counts rows).  Both name orders are counted, so
a duplicate emitted under the reversed order would make this exceed 1. -/
def pairGroupCount (players : List String) (rounds : List (List ℤ))
    (p q : String) (g : ℕ) : ℕ :=
  (pairRows players rounds).countP fun ab =>
    decide (ab.1.gameId = g)
      && (decide (ab.1.player = p ∧ ab.2.player = q)
          || decide (ab.1.player = q ∧ ab.2.player = p))

/-- Same for an unordered triple {p, q, r}: all six orderings counted. -/
def triGroupCount (players : List String) (rounds : List (List ℤ))
    (p q r : String) (g : ℕ) : ℕ :=
  (triRows players rounds).countP fun t =>
    decide (t.1.gameId = g)
      && (decide (t.1.player = p ∧ t.2.1.player = q ∧ t.2.2.player = r)
          || decide (t.1.player = p ∧ t.2.1.player = r ∧ t.2.2.player = q)
          || decide (t.1.player = q ∧ t.2.1.player = p ∧ t.2.2.player = r)
          || decide (t.1.player = q ∧ t.2.1.player = r ∧ t.2.2.player = p)
          || decide (t.1.player = r ∧ t.2.1.player = p ∧ t.2.2.player = q)
          || decide (t.1.player = r ∧ t.2.1.player = q ∧ t.2.2.player = p))

theorem countP_eq_one_of_nodup_mem {α : Type} [DecidableEq α] {l : List α}
    (h : l.Nodup) {a : α} (ha : a ∈ l) :
    l.countP (fun x => decide (x = a)) = 1 := by
  induction l with
  | nil => cases ha
  | cons c l ih =>
    rw [List.countP_cons]
    rcases List.mem_cons.mp ha with e | e
    · have hz : l.countP (fun x => decide (x = a)) = 0 := by
        rw [List.countP_eq_zero]
        intro x hx
        simp only [decide_eq_true_eq]
        intro hxa
        subst hxa
        rw [e] at hx
        exact (List.nodup_cons.mp h).1 hx
      rw [hz]
      simp [← e]
    · have hne : ¬ (c = a) := by
        intro e2
        exact (List.nodup_cons.mp h).1 (e2 ▸ e)
      rw [ih (List.nodup_cons.mp h).2 e]
      simp [hne]

theorem countP_flatMap_factor {α β γ : Type} (l1 : List α) (l2 : List β)
    (f : α → β → γ) (P : γ → Bool) (pa : α → Bool) (pb : β → Bool)
    (hP : ∀ a b, P (f a b) = (pa a && pb b)) :
    (l1.flatMap fun a => l2.map (f a)).countP P = l1.countP pa * l2.countP pb := by
  induction l1 with
  | nil => simp
  | cons a l ih =>
    rw [List.flatMap_cons, List.countP_append, ih, List.countP_map, List.countP_cons]
    have hcomp : l2.countP (P ∘ f a) = if pa a then l2.countP pb else 0 := by
      by_cases h : pa a
      · rw [if_pos h]
        apply List.countP_congr
        intro b hb
        simp [Function.comp, hP, h]
      · rw [if_neg h]
        rw [List.countP_eq_zero]
        intro b hb
        simp only [Function.comp, hP]
        simp [Bool.eq_false_iff.mpr h]
    rw [hcomp]
    by_cases h : pa a
    · simp only [if_pos h, decide_eq_true h]
      simp [Nat.add_mul, Nat.add_comm]
    · simp [if_neg h, Bool.eq_false_iff.mpr h]

theorem mem_melt {players : List String} {rounds : List (List ℤ)} {a : MeltRow} :
    a ∈ melt players rounds ↔
      ∃ jp ∈ players.enum, ∃ ir ∈ rounds.enum,
        MeltRow.mk (ir.1 + 1) jp.2 (ir.2.getD jp.1 0) = a := by
  simp [melt, List.mem_flatMap, List.mem_map]

theorem melt_fd {players : List String} {rounds : List (List ℤ)} (hnd : players.Nodup)
    {a b : MeltRow} (ha : a ∈ melt players rounds) (hb : b ∈ melt players rounds)
    (hp : a.player = b.player) (hg : a.gameId = b.gameId) : a = b := by
  obtain ⟨jp1, hjp1, ir1, hir1, e1⟩ := mem_melt.mp ha
  obtain ⟨jp2, hjp2, ir2, hir2, e2⟩ := mem_melt.mp hb
  subst e1
  subst e2
  simp only at hp hg
  have hi : ir1.1 = ir2.1 := by omega
  have h1 := List.mem_enum_iff_getElem?.mp hir1
  have h2 := List.mem_enum_iff_getElem?.mp hir2
  have hir : ir1 = ir2 := by
    rcases ir1 with ⟨i1, r1⟩
    rcases ir2 with ⟨i2, r2⟩
    simp only at hi
    subst hi
    rw [h1] at h2
    cases h2
    rfl
  have hj1 := List.mem_enum_iff_getElem?.mp hjp1
  have hj2 := List.mem_enum_iff_getElem?.mp hjp2
  have hjlt1 : jp1.1 < players.length := by
    by_contra hge
    rw [List.getElem?_eq_none (Nat.le_of_not_lt hge)] at hj1
    cases hj1
  have hjlt2 : jp2.1 < players.length := by
    by_contra hge
    rw [List.getElem?_eq_none (Nat.le_of_not_lt hge)] at hj2
    cases hj2
  have hjeq : jp1.1 = jp2.1 := by
    apply List.get?_inj hjlt1 hnd
    rw [List.get?_eq_getElem?, List.get?_eq_getElem?, hj1, hj2, hp]
  have hjp : jp1 = jp2 := by
    rcases jp1 with ⟨j1, p1⟩
    rcases jp2 with ⟨j2, p2⟩
    simp only at hjeq hp
    subst hjeq
    subst hp
    rfl
  rw [hir, hjp]

theorem countP_melt_player_game (players : List String) (rounds : List (List ℤ))
    (hnd : players.Nodup) (p : String) (gi : ℕ)
    (hp : p ∈ players) (hgi : gi < rounds.length) :
    (melt players rounds).countP
      (fun a => decide (a.player = p) && decide (a.gameId = gi + 1)) = 1 := by
  have key := countP_flatMap_factor players.enum rounds.enum
      (fun jp ir => MeltRow.mk (ir.1 + 1) jp.2 (ir.2.getD jp.1 0))
      (fun a => decide (a.player = p) && decide (a.gameId = gi + 1))
      (fun jp => decide (jp.2 = p)) (fun ir => decide (ir.1 + 1 = gi + 1))
      (fun jp ir => rfl)
  have e1 : players.enum.countP (fun jp => decide (jp.2 = p)) = 1 := by
    have hmap : players.enum.countP (fun jp => decide (jp.2 = p))
        = (players.enum.map Prod.snd).countP (fun x => decide (x = p)) := by
      rw [List.countP_map]
      rfl
    rw [hmap, List.enum_map_snd]
    exact countP_eq_one_of_nodup_mem hnd hp
  have e2 : rounds.enum.countP (fun ir => decide (ir.1 + 1 = gi + 1)) = 1 := by
    have hmap : rounds.enum.countP (fun ir => decide (ir.1 + 1 = gi + 1))
        = (rounds.enum.map Prod.fst).countP (fun i => decide (i + 1 = gi + 1)) := by
      rw [List.countP_map]
      rfl
    rw [hmap, List.enum_map_fst]
    have hcongr : (List.range rounds.length).countP (fun i => decide (i + 1 = gi + 1))
        = (List.range rounds.length).countP (fun i => decide (i = gi)) := by
      apply List.countP_congr
      intro x hx
      simp
    rw [hcongr]
    exact countP_eq_one_of_nodup_mem (List.nodup_range _) (List.mem_range.mpr hgi)
  rw [e1, e2] at key
  calc (melt players rounds).countP
        (fun a => decide (a.player = p) && decide (a.gameId = gi + 1))
      = 1 * 1 := key
    _ = 1 := by norm_num

theorem melt_player_mem {players : List String} {rounds : List (List ℤ)}
    {a : MeltRow} (ha : a ∈ melt players rounds) : a.player ∈ players := by
  obtain ⟨jp, hjp, ir, hir, e⟩ := mem_melt.mp ha
  subst e
  have : jp.2 ∈ players.enum.map Prod.snd := List.mem_map_of_mem Prod.snd hjp
  rwa [List.enum_map_snd] at this

theorem melt_gameId_bound {players : List String} {rounds : List (List ℤ)}
    {a : MeltRow} (ha : a ∈ melt players rounds) :
    ∃ gi, a.gameId = gi + 1 ∧ gi < rounds.length := by
  obtain ⟨jp, hjp, ir, hir, e⟩ := mem_melt.mp ha
  subst e
  refine ⟨ir.1, rfl, ?_⟩
  have : ir.1 ∈ rounds.enum.map Prod.fst := List.mem_map_of_mem Prod.fst hir
  rw [List.enum_map_fst] at this
  exact List.mem_range.mp this

theorem countP_melt_eq_row (players : List String) (rounds : List (List ℤ))
    (hnd : players.Nodup) (row : MeltRow) (hrow : row ∈ melt players rounds) :
    (melt players rounds).countP (fun a => decide (a = row)) = 1 := by
  obtain ⟨gi, hg1, hg2⟩ := melt_gameId_bound hrow
  have hcongr : (melt players rounds).countP (fun a => decide (a = row))
      = (melt players rounds).countP
          (fun a => decide (a.player = row.player) && decide (a.gameId = gi + 1)) := by
    apply List.countP_congr
    intro a ha
    simp only [decide_eq_true_eq, Bool.and_eq_true]
    constructor
    · intro h
      subst h
      exact ⟨rfl, hg1⟩
    · rintro ⟨h1, h2⟩
      exact melt_fd hnd ha hrow h1 (h2.trans hg1.symm)
  rw [hcongr]
  exact countP_melt_player_game players rounds hnd row.player gi
    (melt_player_mem hrow) hg2

theorem mem_pairProduct {long : List MeltRow} {ab : MeltRow × MeltRow} :
    ab ∈ pairProduct long ↔ ab.1 ∈ long ∧ ab.2 ∈ long := by
  rcases ab with ⟨a, b⟩
  constructor
  · intro h
    simp only [pairProduct, List.mem_flatMap, List.mem_map] at h
    obtain ⟨x, hx, y, hy, e⟩ := h
    rw [Prod.mk.injEq] at e
    exact ⟨e.1 ▸ hx, e.2 ▸ hy⟩
  · rintro ⟨ha, hb⟩
    simp only [pairProduct, List.mem_flatMap, List.mem_map]
    exact ⟨a, ha, b, hb, rfl⟩

theorem pairGroupCount_eq_one (players : List String) (rounds : List (List ℤ))
    (hnd : players.Nodup) (p q : String) (gi : ℕ) (sp sq : ℤ)
    (hpq : p < q)
    (hp : MeltRow.mk (gi + 1) p sp ∈ melt players rounds)
    (hq : MeltRow.mk (gi + 1) q sq ∈ melt players rounds)
    (hside : resultOf sp = resultOf sq) :
    pairGroupCount players rounds p q (gi + 1) = 1 := by
  have step : (pairProduct (melt players rounds)).countP
      (fun ab => decide (ab.1 = MeltRow.mk (gi + 1) p sp)
        && decide (ab.2 = MeltRow.mk (gi + 1) q sq))
      = (melt players rounds).countP (fun a => decide (a = MeltRow.mk (gi + 1) p sp))
        * (melt players rounds).countP (fun b => decide (b = MeltRow.mk (gi + 1) q sq)) :=
    countP_flatMap_factor _ _ _ _ _ _ (fun a b => rfl)
  rw [countP_melt_eq_row players rounds hnd _ hp,
      countP_melt_eq_row players rounds hnd _ hq] at step
  rw [pairGroupCount, pairRows]
  simp only [List.countP_filter]
  refine Eq.trans (List.countP_congr ?_) (by rw [step])
  intro ab hab
  obtain ⟨ha, hb⟩ := mem_pairProduct.mp hab
  rcases ab with ⟨a, b⟩
  simp only [Bool.and_eq_true, Bool.or_eq_true, decide_eq_true_eq]
  constructor
  · rintro ⟨⟨⟨⟨hg, hmatch⟩, hlt⟩, hne⟩, hkey, hres⟩
    rcases hmatch with ⟨hxp, hyq⟩ | ⟨hxq, hyp⟩
    · have ea : a = MeltRow.mk (gi + 1) p sp := melt_fd hnd ha hp hxp hg
      have eb : b = MeltRow.mk (gi + 1) q sq :=
        melt_fd hnd hb hq hyq (hkey ▸ hg)
      exact ⟨ea, eb⟩
    · exfalso
      rw [hxq, hyp] at hlt
      exact absurd hpq (lt_asymm hlt)
  · rintro ⟨ea, eb⟩
    subst ea
    subst eb
    exact ⟨⟨⟨⟨rfl, Or.inl ⟨rfl, rfl⟩⟩, hpq⟩, ne_of_lt hpq⟩, rfl, hside⟩

theorem mem_triProduct {long : List MeltRow} {t : MeltRow × MeltRow × MeltRow} :
    t ∈ triProduct long ↔ t.1 ∈ long ∧ t.2 ∈ pairProduct long := by
  rcases t with ⟨a, bc⟩
  constructor
  · intro h
    simp only [triProduct, List.mem_flatMap, List.mem_map] at h
    obtain ⟨x, hx, y, hy, e⟩ := h
    rw [Prod.mk.injEq] at e
    exact ⟨e.1 ▸ hx, e.2 ▸ hy⟩
  · rintro ⟨ha, hbc⟩
    simp only [triProduct, List.mem_flatMap, List.mem_map]
    exact ⟨a, ha, bc, hbc, rfl⟩

theorem triGroupCount_eq_one (players : List String) (rounds : List (List ℤ))
    (hnd : players.Nodup) (p q r : String) (gi : ℕ) (sp sq sr : ℤ)
    (hpq : p < q) (hqr : q < r)
    (hp : MeltRow.mk (gi + 1) p sp ∈ melt players rounds)
    (hq : MeltRow.mk (gi + 1) q sq ∈ melt players rounds)
    (hr : MeltRow.mk (gi + 1) r sr ∈ melt players rounds)
    (hside : resultOf sp = resultOf sq) (hside2 : resultOf sq = resultOf sr) :
    triGroupCount players rounds p q r (gi + 1) = 1 := by
  have stepInner : (pairProduct (melt players rounds)).countP
      (fun bc => decide (bc.1 = MeltRow.mk (gi + 1) q sq)
        && decide (bc.2 = MeltRow.mk (gi + 1) r sr))
      = (melt players rounds).countP (fun a => decide (a = MeltRow.mk (gi + 1) q sq))
        * (melt players rounds).countP (fun b => decide (b = MeltRow.mk (gi + 1) r sr)) :=
    countP_flatMap_factor _ _ _ _ _ _ (fun a b => rfl)
  have stepOuter : (triProduct (melt players rounds)).countP
      (fun t => decide (t.1 = MeltRow.mk (gi + 1) p sp)
        && (decide (t.2.1 = MeltRow.mk (gi + 1) q sq)
            && decide (t.2.2 = MeltRow.mk (gi + 1) r sr)))
      = (melt players rounds).countP (fun a => decide (a = MeltRow.mk (gi + 1) p sp))
        * (pairProduct (melt players rounds)).countP
            (fun bc => decide (bc.1 = MeltRow.mk (gi + 1) q sq)
              && decide (bc.2 = MeltRow.mk (gi + 1) r sr)) :=
    countP_flatMap_factor _ _ _ _ _ _ (fun a b => rfl)
  rw [stepInner, countP_melt_eq_row players rounds hnd _ hp,
      countP_melt_eq_row players rounds hnd _ hq,
      countP_melt_eq_row players rounds hnd _ hr] at stepOuter
  rw [triGroupCount, triRows]
  simp only [List.countP_filter]
  refine Eq.trans (List.countP_congr ?_) (by rw [stepOuter])
  intro t ht
  obtain ⟨ha, hbc⟩ := mem_triProduct.mp ht
  obtain ⟨hb, hc⟩ := mem_pairProduct.mp hbc
  rcases t with ⟨a, b, c⟩
  simp only [Bool.and_eq_true, Bool.or_eq_true, decide_eq_true_eq]
  constructor
  · rintro ⟨⟨⟨⟨⟨⟨⟨⟨⟨hg, hmatch⟩, hlt_xz⟩, hlt_yz⟩, hlt_xy⟩, hne_xz⟩, hne_yz⟩,
      hne_xy⟩, hkey13, hres13⟩, hkey12, hres12⟩
    rcases hmatch with ((((⟨e1, e2, e3⟩ | ⟨e1, e2, e3⟩) | ⟨e1, e2, e3⟩)
      | ⟨e1, e2, e3⟩) | ⟨e1, e2, e3⟩) | ⟨e1, e2, e3⟩
    · refine ⟨melt_fd hnd ha hp e1 hg, melt_fd hnd hb hq e2 (hkey12 ▸ hg),
        melt_fd hnd hc hr e3 (hkey13 ▸ hg)⟩
    · rw [e2, e3] at hlt_yz
      exact absurd hqr (lt_asymm hlt_yz)
    · rw [e1, e2] at hlt_xy
      exact absurd hpq (lt_asymm hlt_xy)
    · rw [e2, e3] at hlt_yz
      exact absurd (lt_trans hpq hqr) (lt_asymm hlt_yz)
    · rw [e1, e2] at hlt_xy
      exact absurd (lt_trans hpq hqr) (lt_asymm hlt_xy)
    · rw [e1, e2] at hlt_xy
      exact absurd hqr (lt_asymm hlt_xy)
  · rintro ⟨e1, e2, e3⟩
    subst e1
    subst e2
    subst e3
    exact ⟨⟨⟨⟨⟨⟨⟨⟨⟨rfl, Or.inl (Or.inl (Or.inl (Or.inl (Or.inl ⟨rfl, rfl, rfl⟩))))⟩,
      lt_trans hpq hqr⟩, hqr⟩, hpq⟩,
      ne_of_lt (lt_trans hpq hqr)⟩, ne_of_lt hqr⟩, ne_of_lt hpq⟩,
      rfl, hside.trans hside2⟩, rfl, hside⟩

theorem pairRows_ordered (players : List String) (rounds : List (List ℤ)) :
    ∀ ab ∈ pairRows players rounds, ab.1.player < ab.2.player := by
  intro ab hab
  simp only [pairRows] at hab
  have h := List.of_mem_filter hab
  simpa using h

theorem triRows_ordered (players : List String) (rounds : List (List ℤ)) :
    ∀ t ∈ triRows players rounds,
      t.1.player < t.2.1.player ∧ t.2.1.player < t.2.2.player := by
  intro t ht
  simp only [triRows] at ht
  have h3 : t.1.player < t.2.2.player := by simpa using List.of_mem_filter ht
  have ht2 := List.mem_of_mem_filter ht
  have h2 : t.2.1.player < t.2.2.player := by simpa using List.of_mem_filter ht2
  have ht1 := List.mem_of_mem_filter ht2
  have h1 : t.1.player < t.2.1.player := by simpa using List.of_mem_filter ht1
  exact ⟨h1, h2⟩

/-- C8: the pair and triple aggregations deduplicate every unordered group
to exactly one representative row per shared round.  Whenever two (three)
distinct players are on the same side of a round, the joined-and-filtered
table contains exactly one row for the unordered group in that round —
counting both (all six) name orders — and every emitted row lists its
players in strictly increasing name order, so each shared round
contributes exactly 1 to the group's `TotalGames`. -/
theorem C8_combination_dedup (players : List String) (rounds : List (List ℤ))
    (hnd : players.Nodup) :
    (∀ p q : String, ∀ gi : ℕ, ∀ sp sq : ℤ, p < q →
        MeltRow.mk (gi + 1) p sp ∈ melt players rounds →
        MeltRow.mk (gi + 1) q sq ∈ melt players rounds →
        resultOf sp = resultOf sq →
        pairGroupCount players rounds p q (gi + 1) = 1) ∧
    (∀ ab ∈ pairRows players rounds, ab.1.player < ab.2.player) ∧
    (∀ p q r : String, ∀ gi : ℕ, ∀ sp sq sr : ℤ, p < q → q < r →
        MeltRow.mk (gi + 1) p sp ∈ melt players rounds →
        MeltRow.mk (gi + 1) q sq ∈ melt players rounds →
        MeltRow.mk (gi + 1) r sr ∈ melt players rounds →
        resultOf sp = resultOf sq → resultOf sq = resultOf sr →
        triGroupCount players rounds p q r (gi + 1) = 1) ∧
    (∀ t ∈ triRows players rounds,
        t.1.player < t.2.1.player ∧ t.2.1.player < t.2.2.player) := by
  refine ⟨?_, pairRows_ordered players rounds, ?_, triRows_ordered players rounds⟩
  · intro p q gi sp sq hpq hp hq hside
    exact pairGroupCount_eq_one players rounds hnd p q gi sp sq hpq hp hq hside
  · intro p q r gi sp sq sr hpq hqr hp hq hr hside hside2
    exact triGroupCount_eq_one players rounds hnd p q r gi sp sq sr hpq hqr hp hq hr
      hside hside2

theorem C8_witness :
    pairGroupCount ["A", "B", "C", "D", "E", "F"] [[120, 80, 50, 0, -5, -10]]
      "A" "B" 1 = 1 ∧
    triGroupCount ["A", "B", "C", "D", "E", "F"] [[120, 80, 50, 0, -5, -10]]
      "A" "B" "C" 1 = 1 := by
  have h := C8_combination_dedup ["A", "B", "C", "D", "E", "F"]
    [[120, 80, 50, 0, -5, -10]] (by decide)
  have hAB : "A" < "B" := by
    rw [String.lt_iff_toList_lt]
    decide
  have hBC : "B" < "C" := by
    rw [String.lt_iff_toList_lt]
    decide
  exact ⟨h.1 "A" "B" 0 120 80 hAB (by decide) (by decide) (by decide),
    h.2.2.1 "A" "B" "C" 0 120 80 50 hAB hBC (by decide) (by decide)
      (by decide) (by decide) (by decide)⟩

theorem round2_mono {a b : ℚ} (h : a ≤ b) : round2 a ≤ round2 b := by
  unfold round2
  have hr : round (100 * a) ≤ round (100 * b) := by
    rw [round_eq, round_eq]
    exact Int.floor_le_floor (by linarith)
  have h2 : ((round (100 * a) : ℤ) : ℚ) ≤ ((round (100 * b) : ℤ) : ℚ) := by
    exact_mod_cast hr
  linarith

theorem round2_int_div (k : ℤ) : round2 ((k : ℚ) / 100) = (k : ℚ) / 100 := by
  unfold round2
  have h : (100 : ℚ) * ((k : ℚ) / 100) = (k : ℚ) := by ring
  rw [h, round_intCast]

/-- C10: when the current rating lies exactly on the hundredths grid and the
adjusted points are nonnegative, registering a win cannot decrease the
rating and registering a loss cannot increase it, despite the re-rounding
to 2 decimal places. -/
theorem C10_rating_monotone (p : PlayerProfile) (key : String) (pts : ℚ)
    (bw nb nbw : Bool) (k : ℤ) (hr : p.rating = (k : ℚ) / 100) (hpts : 0 ≤ pts) :
    p.rating ≤ (register_game p key pts true bw nb nbw).rating ∧
    (register_game p key pts false bw nb nbw).rating ≤ p.rating := by
  constructor
  · rw [register_game_rating_true]
    calc p.rating = round2 p.rating := by rw [hr, round2_int_div]
    _ ≤ round2 (p.rating + pts) := round2_mono (by linarith)
  · rw [register_game_rating_false]
    calc round2 (p.rating - pts) ≤ round2 p.rating := round2_mono (by linarith)
    _ = p.rating := by rw [hr, round2_int_div]

theorem C10_witness :
    (PlayerProfile.init "A").rating
        ≤ (register_game (PlayerProfile.init "A") "T1" (3 / 1000) true false false false).rating ∧
    (register_game (PlayerProfile.init "A") "T1" (3 / 1000) false false false false).rating
        ≤ (PlayerProfile.init "A").rating :=
  C10_rating_monotone (PlayerProfile.init "A") "T1" (3 / 1000) false false false
    100000 (by norm_num [PlayerProfile.init, BASE_RATING]) (by norm_num)

end ThreeOfSpades
